import Mathlib

/-!
Shallow embedding of the auth (JWT manager, RBAC engine, policy evaluator)
and middleware rate-limiter components of the hwhkit-go toolkit, with
theorems checking the repository's specification against the code.

Modelling conventions:
* Go strings are modelled as their character sequences (`List Char`);
  Go's `s[:8]` on an ASCII string is `List.take 8`, and slicing beyond the
  length is a runtime panic, modelled as an explicit outcome.
* Go `int`/`int64` are modelled as unbounded `Int`: no arithmetic in these
  components approaches the 64-bit range on the inputs the claims concern.
* `time.Time` is an integer timestamp: Unix seconds for the JWT manager
  (whose claims are second-granularity NumericDates), nanoseconds for the
  rate limiter (whose arithmetic is on `time.Duration` nanosecond counts).
* Fallible Go functions returning `(T, error)` become `Except`-valued
  functions; where the Go code can panic, the result type carries a
  dedicated panic outcome.
* Go maps become association lists (keys unique) or, for map-with-zero-value
  reads, total lookup functions returning `[]` for absent keys.
-/

/-- Go string contents, as the sequence of its characters. -/
abbrev GoStr : Type := List Char

/-- Result of Go `fmt.Sprintf("%d", n)` on an `int64`: the decimal digits,
with a leading minus sign for a negative value.  `Nat.toDigits 10` is the
decimal digit rendering used by `Nat.repr`. -/
def goItoa : Int → GoStr
  | Int.ofNat n => Nat.toDigits 10 n
  | Int.negSucc n => '-' :: Nat.toDigits 10 (n + 1)

/-! ## JWT manager (`pkg/auth/manager.go`) -/

/-- Signing method recorded in a token's header.  The manager signs with
HMAC-SHA256 and validation only checks that the method is some HMAC
variant (`token.Method.(*jwt.SigningMethodHMAC)`), so the embedding just
distinguishes HMAC from everything else. -/
inductive SigningMethod
  | hmac
  | nonHMAC
deriving DecidableEq

/-- Mirror of `config.JWTConfig`. -/
structure JWTConfig where
  secret : GoStr
  expireHours : Int
  refreshHours : Int
  issuer : GoStr
deriving DecidableEq

/-- Mirror of `auth.Claims`: the custom identity fields plus the registered
claims the manager fills in.  Timestamps are Unix seconds. -/
structure Claims where
  userID : Int
  username : GoStr
  email : GoStr
  role : GoStr
  issuer : GoStr
  subject : GoStr
  audience : List GoStr
  expiresAt : Int
  notBefore : Int
  issuedAt : Int
deriving DecidableEq

/-- A signed compact JWT, modelled structurally: the header's signing
method, the claims payload, and the secret the HMAC signature was produced
with.  Verification under key `k` succeeds exactly when the token was
signed with `k` (an ideal MAC, collisions ignored). -/
structure Token where
  alg : SigningMethod
  claims : Claims
  signedWith : GoStr
deriving DecidableEq

/-- Mirror of `auth.TokenPair`. -/
structure TokenPair where
  accessToken : Token
  refreshToken : Token
  expiresAt : Int
  tokenType : GoStr
deriving DecidableEq

/-- The distinguishable error outcomes of the manager's token functions:
the three produced inside `ValidateToken`'s key function and epilogue, the
two registered-claims failures raised by `jwt.ParseWithClaims` (its default
validator checks `exp` and `nbf`), and `RefreshToken`'s own error. -/
inductive AuthError
  | badSigningMethod
  | badSignature
  | tokenExpired
  | tokenNotValidYet
  | badIssuer
  | notRefreshToken
deriving DecidableEq

/-- Mirror of `auth.Manager`: the configuration plus the signing method
chosen at construction. -/
structure Manager where
  config : JWTConfig
  signingMethod : SigningMethod
deriving DecidableEq

/-- Mirror of `auth.New`: always HMAC-SHA256. -/
def Manager.new (cfg : JWTConfig) : Manager :=
  { config := cfg, signingMethod := .hmac }

/-- Mirror of `Manager.GenerateToken` at issue time `now` (the Go code reads
`time.Now()`; the embedding passes the clock explicitly).  Signing cannot
fail in the model, so the `(string, error)` pair becomes a `Token`. -/
def Manager.generateToken (m : Manager) (now : Int) (userID : Int)
    (username email role : GoStr) : Token :=
  { alg := m.signingMethod
    signedWith := m.config.secret
    claims :=
      { userID := userID
        username := username
        email := email
        role := role
        issuer := m.config.issuer
        subject := goItoa userID
        audience := [m.config.issuer]
        expiresAt := now + m.config.expireHours * 3600
        notBefore := now
        issuedAt := now } }

/-- Mirror of `Manager.GenerateRefreshToken`: same shape, refresh expiry,
subject `"refresh:<id>"`, and no email/role claims. -/
def Manager.generateRefreshToken (m : Manager) (now : Int) (userID : Int)
    (username : GoStr) : Token :=
  { alg := m.signingMethod
    signedWith := m.config.secret
    claims :=
      { userID := userID
        username := username
        email := []
        role := []
        issuer := m.config.issuer
        subject := "refresh:".data ++ goItoa userID
        audience := [m.config.issuer]
        expiresAt := now + m.config.refreshHours * 3600
        notBefore := now
        issuedAt := now } }

/-- Mirror of `Manager.GenerateTokenPair`. -/
def Manager.generateTokenPair (m : Manager) (now : Int) (userID : Int)
    (username email role : GoStr) : TokenPair :=
  { accessToken := m.generateToken now userID username email role
    refreshToken := m.generateRefreshToken now userID username
    expiresAt := now + m.config.expireHours * 3600
    tokenType := "Bearer".data }

/-- Mirror of `Manager.ValidateToken` at clock `now`.  The checks, in
order: the key function rejects non-HMAC methods; the library verifies the
signature; the library's default claims validation rejects a passed
`exp` (`now < exp` required) and a future `nbf`; finally the Go code
compares the issuer against the configuration. -/
def Manager.validateToken (m : Manager) (now : Int) (tok : Token) :
    Except AuthError Claims :=
  if tok.alg ≠ .hmac then .error .badSigningMethod
  else if tok.signedWith ≠ m.config.secret then .error .badSignature
  else if tok.claims.expiresAt ≤ now then .error .tokenExpired
  else if now < tok.claims.notBefore then .error .tokenNotValidYet
  else if tok.claims.issuer ≠ m.config.issuer then .error .badIssuer
  else .ok tok.claims

/-- Outcome of `Manager.RefreshToken`.  The Go signature returns
`(*TokenPair, error)`, but evaluating `claims.Subject[:8]` on a non-empty
subject shorter than 8 bytes is a runtime panic (slice bounds out of
range), an outcome distinct from every returned error. -/
inductive RefreshResult
  | ok (pair : TokenPair)
  | error (e : AuthError)
  | panicSliceOutOfRange
deriving DecidableEq

/-- Mirror of `Manager.RefreshToken`: validate, then test
`claims.Subject == "" || claims.Subject[:8] != "refresh:"` (the `||` is
short-circuit, so the slice is only evaluated on a non-empty subject, and
panics when that subject is shorter than 8), then issue a fresh pair from
the embedded identity. -/
def Manager.refreshToken (m : Manager) (now : Int) (tok : Token) :
    RefreshResult :=
  match m.validateToken now tok with
  | .error e => .error e
  | .ok claims =>
    if claims.subject = [] then .error .notRefreshToken
    else if claims.subject.length < 8 then .panicSliceOutOfRange
    else if claims.subject.take 8 ≠ "refresh:".data then .error .notRefreshToken
    else .ok (m.generateTokenPair now claims.userID claims.username
        claims.email claims.role)

/-! ## RBAC engine (`pkg/auth/rbac.go`) -/

/-- Mirror of `auth.Permission`. -/
structure Permission where
  id : GoStr
  name : GoStr
  description : GoStr
  resource : GoStr
  action : GoStr
deriving DecidableEq

/-- Mirror of `auth.Role`: owns a denormalized copy of its permissions. -/
structure Role where
  id : GoStr
  name : GoStr
  description : GoStr
  permissions : List Permission
deriving DecidableEq

/-- Mirror of `auth.RBAC`.  The Go maps `roles`/`permissions` are keyed by
the entries' own `ID` fields, so they are modelled as the lists of their
values (keys unique) with lookup by `id`; `userRoles` is an association
list whose lookup returns the map's zero value `[]` for an absent key. -/
structure RBAC where
  roles : List Role
  permissions : List Permission
  userRoles : List (GoStr × List GoStr)
deriving DecidableEq

/-- Lookup `rbac.roles[roleID]`. -/
def RBAC.findRole (rbac : RBAC) (roleID : GoStr) : Option Role :=
  rbac.roles.find? fun r => decide (r.id = roleID)

/-- Lookup `rbac.permissions[permissionID]`. -/
def RBAC.findPermission (rbac : RBAC) (permissionID : GoStr) :
    Option Permission :=
  rbac.permissions.find? fun p => decide (p.id = permissionID)

/-- Mirror of `RBAC.GetUserRoles`: the Go map read
`rbac.userRoles[userID]`, whose zero value for an absent key is `[]`. -/
def RBAC.getUserRoles (rbac : RBAC) (userID : GoStr) : List GoStr :=
  match rbac.userRoles.find? fun e => decide (e.1 = userID) with
  | some e => e.2
  | none => []

/-- The loop body of `RBAC.removePermissionFromRole`: Go removes the first
entry whose `ID` matches and then breaks out of the loop. -/
def removeFirstPermissionById : List Permission → GoStr → List Permission
  | [], _ => []
  | p :: ps, pid => if p.id = pid then ps else p :: removeFirstPermissionById ps pid

/-- Mirror of the private helper `RBAC.removePermissionFromRole` (it
mutates the role in place; the embedding returns the updated role). -/
def removePermissionFromRole (role : Role) (permissionID : GoStr) : Role :=
  { role with permissions := removeFirstPermissionById role.permissions permissionID }

/-- Error outcomes of the RBAC operations used by the claims. -/
inductive RBACError
  | permissionNotFound
  | roleNotFound
deriving DecidableEq

/-- Mirror of `RBAC.RemovePermission`: not-found check, then the cascade
over every role, then deletion of the registry entry (the Go `delete`
removes the single entry keyed `permissionID`; with unique keys this is
the filter below). -/
def RBAC.removePermission (rbac : RBAC) (permissionID : GoStr) :
    Except RBACError RBAC :=
  match rbac.findPermission permissionID with
  | none => .error .permissionNotFound
  | some _ => .ok
      { rbac with
        roles := rbac.roles.map fun r => removePermissionFromRole r permissionID
        permissions := rbac.permissions.filter fun p => decide (p.id ≠ permissionID) }

/-- The loop of `RBAC.deduplicatePermissions` with its `seen` set (a Go
`map[string]bool`) made explicit: keeps the first occurrence of each id. -/
def deduplicatePermissionsAux : List Permission → List GoStr → List Permission
  | [], _ => []
  | p :: ps, seen =>
    if p.id ∈ seen then deduplicatePermissionsAux ps seen
    else p :: deduplicatePermissionsAux ps (p.id :: seen)

/-- Mirror of the private helper `RBAC.deduplicatePermissions`. -/
def deduplicatePermissions (ps : List Permission) : List Permission :=
  deduplicatePermissionsAux ps []

/-- Mirror of `RBAC.GetUserPermissions`: concatenate, in role order, the
permission lists of the user's roles that resolve in the registry, then
deduplicate by id. -/
def RBAC.getUserPermissions (rbac : RBAC) (userID : GoStr) : List Permission :=
  deduplicatePermissions
    ((rbac.getUserRoles userID).flatMap fun roleID =>
      match rbac.findRole roleID with
      | some role => role.permissions
      | none => [])

/-- Mirror of `RBAC.HasPermission`. -/
def RBAC.hasPermission (rbac : RBAC) (userID permissionID : GoStr) : Bool :=
  (rbac.getUserPermissions userID).any fun p => decide (p.id = permissionID)

/-- Mirror of `RBAC.HasResourcePermission`: exact `(resource, action)`
match, or a wildcard `*` in either field of the held permission. -/
def RBAC.hasResourcePermission (rbac : RBAC) (userID resource action : GoStr) :
    Bool :=
  (rbac.getUserPermissions userID).any fun p =>
    (decide (p.resource = resource) && decide (p.action = action)) ||
    (decide (p.resource = "*".data) || decide (p.action = "*".data))

/-- Mirror of `RBAC.HasRole`. -/
def RBAC.hasRole (rbac : RBAC) (userID roleID : GoStr) : Bool :=
  (rbac.getUserRoles userID).any fun r => decide (r = roleID)

/-- Mirror of `RBAC.HasAnyRole`. -/
def RBAC.hasAnyRole (rbac : RBAC) (userID : GoStr) (roleIDs : List GoStr) :
    Bool :=
  roleIDs.any fun roleID => rbac.hasRole userID roleID

/-- Mirror of `auth.Policy`. -/
structure Policy where
  resource : GoStr
  actions : List GoStr
  roles : List GoStr
  permissions : List GoStr
deriving DecidableEq

/-- Mirror of `auth.PolicyEvaluator`. -/
structure PolicyEvaluator where
  rbac : RBAC
deriving DecidableEq

/-- Mirror of `PolicyEvaluator.EvaluatePolicy`.  The Go function is a chain
of early `return false`s: the roles check is guarded by `len > 0`; the
permissions loop under its `len > 0` guard and the unguarded actions loop
are the two `all`s below (the guard is vacuous for an empty list). -/
def PolicyEvaluator.evaluatePolicy (pe : PolicyEvaluator) (userID : GoStr)
    (policy : Policy) : Bool :=
  (policy.roles.isEmpty || pe.rbac.hasAnyRole userID policy.roles) &&
  (policy.permissions.all fun pid => pe.rbac.hasPermission userID pid) &&
  (policy.actions.all fun action =>
    pe.rbac.hasResourcePermission userID policy.resource action)

/-! ## Rate limiter (`pkg/middleware/ratelimit.go`) -/

/-- Mirror of `middleware.tokenBucket`.  `lastRefill` is a nanosecond
timestamp. -/
structure TokenBucket where
  tokens : Int
  capacity : Int
  rate : Int
  lastRefill : Int
deriving DecidableEq

/-- Mirror of `newTokenBucket` at creation time `now`: starts full. -/
def newTokenBucket (capacity rate now : Int) : TokenBucket :=
  { tokens := capacity, capacity := capacity, rate := rate, lastRefill := now }

/-- Mirror of `tokenBucket.consume` at clock `now` (nanoseconds).
`int(elapsed.Seconds()) * tb.rate` truncates the elapsed seconds toward
zero, which is `Int.tdiv` of the nanosecond difference by 10^9; tokens are
only added when the product is positive, capped at capacity, and then one
token is consumed when available. -/
def TokenBucket.consume (tb : TokenBucket) (now : Int) : Bool × TokenBucket :=
  let tokensToAdd := Int.tdiv (now - tb.lastRefill) 1000000000 * tb.rate
  let refilled :=
    if 0 < tokensToAdd then
      { tb with
        tokens := if tb.capacity < tb.tokens + tokensToAdd then tb.capacity
          else tb.tokens + tokensToAdd
        lastRefill := now }
    else tb
  if 0 < refilled.tokens then (true, { refilled with tokens := refilled.tokens - 1 })
  else (false, refilled)

/-- A sequence of `consume` calls at the given clock values, returning the
final bucket state. -/
def TokenBucket.consumeAll (tb : TokenBucket) (times : List Int) : TokenBucket :=
  times.foldl (fun b t => (b.consume t).2) tb

/-- Mirror of `middleware.slidingWindow`.  Request timestamps and the
window duration are in nanoseconds. -/
structure SlidingWindow where
  requests : List Int
  limit : Int
  window : Int
deriving DecidableEq

/-- Mirror of `newSlidingWindow`: starts empty. -/
def newSlidingWindow (limit window : Int) : SlidingWindow :=
  { requests := [], limit := limit, window := window }

/-- Mirror of `slidingWindow.allow` at clock `now`: keep the timestamps
strictly after `now - window` (`reqTime.After(cutoff)`), deny when their
count has reached the limit, otherwise record `now` and admit. -/
def SlidingWindow.allow (sw : SlidingWindow) (now : Int) : Bool × SlidingWindow :=
  let valid := sw.requests.filter fun t => decide (now - sw.window < t)
  if sw.limit ≤ (valid.length : Int) then (false, { sw with requests := valid })
  else (true, { sw with requests := valid ++ [now] })

/-- A sequence of `allow` calls at the given clock values, returning the
decisions in order and the final window state. -/
def SlidingWindow.allowAll (sw : SlidingWindow) (times : List Int) :
    List Bool × SlidingWindow :=
  times.foldl (fun acc t =>
    let r := acc.2.allow t
    (acc.1 ++ [r.1], r.2)) ([], sw)

/-! ## Concrete instances used by witnesses and counterexamples -/

deriving instance DecidableEq for Except

/-- The configuration of the repository's own auth tests
(`getTestConfig` in `auth_test.go`). -/
def cfgA : JWTConfig :=
  { secret := "test-secret-key".data
    expireHours := 1
    refreshHours := 24
    issuer := "test-app".data }

/-- The manager of the repository's own auth tests. -/
def mgrA : Manager := Manager.new cfgA

/-- The `user.read` permission of `CreateDefaultRolesAndPermissions`. -/
def permRead : Permission :=
  { id := "user.read".data
    name := "read user".data
    description := []
    resource := "user".data
    action := "read".data }

/-- A role holding `permRead`, as in `CreateDefaultRolesAndPermissions`. -/
def roleUserA : Role :=
  { id := "user".data
    name := "normal user".data
    description := []
    permissions := [permRead] }

/-- A small registry: one permission, one role holding it, one user. -/
def rbacA : RBAC :=
  { roles := [roleUserA]
    permissions := [permRead]
    userRoles := [("alice".data, ["user".data])] }

/-- The registry `rbacA` after `RemovePermission("user.read")`. -/
def rbacARemoved : RBAC :=
  { roles := [{ roleUserA with permissions := [] }]
    permissions := []
    userRoles := [("alice".data, ["user".data])] }

/-- A token correctly HMAC-signed with `cfgA`'s secret and issuer, not yet
expired, but whose `nbf` lies in the future of the validation clock 50. -/
def tokNbf : Token :=
  { alg := .hmac
    signedWith := cfgA.secret
    claims :=
      { userID := 7
        username := "u".data
        email := []
        role := []
        issuer := cfgA.issuer
        subject := "7".data
        audience := [cfgA.issuer]
        expiresAt := 1000
        notBefore := 100
        issuedAt := 100 } }

/-! ## Decimal rendering lemmas -/

theorem toDigitsCore_length_gt (f : Nat) : ∀ (n : Nat) (ds : List Char),
    ds.length < (Nat.toDigitsCore 10 (f + 1) n ds).length := by
  induction f with
  | zero =>
    intro n ds
    simp only [Nat.toDigitsCore]
    split <;> simp [Nat.toDigitsCore]
  | succ f ih =>
    intro n ds
    simp only [Nat.toDigitsCore]
    split
    · simp
    · exact Nat.lt_trans (Nat.lt_succ_self _)
        (by simpa using ih (n / 10) (Nat.digitChar (n % 10) :: ds))

theorem toDigits_length_pos (n : Nat) : 0 < (Nat.toDigits 10 n).length := by
  simpa [Nat.toDigits] using toDigitsCore_length_gt n n []

theorem toDigits_length_le (n e : Nat) (he : 0 < e) (h : n < 10 ^ e) :
    (Nat.toDigits 10 n).length ≤ e := by
  simpa [Nat.toDigits] using Nat.toDigitsCore_length 10 (by norm_num) (n + 1) n e h he

theorem goItoa_ne_nil (i : Int) : goItoa i ≠ [] := by
  cases i with
  | ofNat n =>
    simp only [goItoa]
    exact List.length_pos.mp (toDigits_length_pos n)
  | negSucc n => simp [goItoa]

theorem goItoa_length_lt_eight (i : Int) (h0 : 0 ≤ i) (h : i < 10000000) :
    (goItoa i).length < 8 := by
  cases i with
  | ofNat n =>
    have hn : n < 10 ^ 7 := by
      have hnat : (n : Int) < 10000000 := h
      have : n < 10000000 := by exact_mod_cast hnat
      omega
    have hle := toDigits_length_le n 7 (by norm_num) hn
    simp only [goItoa]
    omega
  | negSucc n => exact absurd h0 (by simp)

/-! ## JWT manager theorems -/

/-- A token freshly generated by a manager passes that manager's
validation at any clock inside its validity window, returning its own
claims.  Shared by the round-trip and panic theorems. -/
theorem validateToken_generateToken (cfg : JWTConfig) (t0 now userID : Int)
    (u e r : GoStr) (h1 : t0 ≤ now) (h2 : now < t0 + cfg.expireHours * 3600) :
    (Manager.new cfg).validateToken now
        ((Manager.new cfg).generateToken t0 userID u e r) =
      .ok ((Manager.new cfg).generateToken t0 userID u e r).claims := by
  unfold Manager.validateToken Manager.generateToken Manager.new
  dsimp only
  rw [if_neg (by simp), if_neg (by simp), if_neg (by omega), if_neg (by omega),
    if_neg (by simp)]

/-- C6: validating a token freshly issued by `GenerateToken` under the same
manager, at a clock within its validity window, succeeds and yields claims
whose `UserID` equals the generating user ID. -/
theorem generateToken_validateToken_roundtrip (cfg : JWTConfig)
    (t0 now userID : Int) (u e r : GoStr)
    (h1 : t0 ≤ now) (h2 : now < t0 + cfg.expireHours * 3600) :
    ∃ c, (Manager.new cfg).validateToken now
        ((Manager.new cfg).generateToken t0 userID u e r) = .ok c ∧
      c.userID = userID :=
  ⟨_, validateToken_generateToken cfg t0 now userID u e r h1 h2, rfl⟩

theorem generateToken_validateToken_roundtrip_witness :
    ∃ c, (Manager.new cfgA).validateToken 100
        ((Manager.new cfgA).generateToken 0 42 "u".data "e".data "r".data) = .ok c ∧
      c.userID = 42 :=
  generateToken_validateToken_roundtrip cfgA 0 100 42 "u".data "e".data "r".data
    (by decide) (by decide)

/-- C2: a validly-signed, unexpired access token for a user ID below
10000000 has a non-empty decimal subject shorter than 8 characters, and
`RefreshToken` on it hits the out-of-range slice `claims.Subject[:8]`
instead of returning an error. -/
theorem refreshToken_panics_on_short_subject (cfg : JWTConfig)
    (t0 now userID : Int) (u e r : GoStr)
    (hpos : 0 ≤ userID) (hlt : userID < 10000000)
    (h1 : t0 ≤ now) (h2 : now < t0 + cfg.expireHours * 3600) :
    ((Manager.new cfg).generateToken t0 userID u e r).claims.subject ≠ [] ∧
    ((Manager.new cfg).generateToken t0 userID u e r).claims.subject.length < 8 ∧
    (Manager.new cfg).refreshToken now
        ((Manager.new cfg).generateToken t0 userID u e r) =
      .panicSliceOutOfRange := by
  have hsub : ((Manager.new cfg).generateToken t0 userID u e r).claims.subject =
      goItoa userID := rfl
  refine ⟨?_, ?_, ?_⟩
  · rw [hsub]; exact goItoa_ne_nil userID
  · rw [hsub]; exact goItoa_length_lt_eight userID hpos hlt
  · unfold Manager.refreshToken
    rw [validateToken_generateToken cfg t0 now userID u e r h1 h2]
    dsimp only
    rw [hsub, if_neg (goItoa_ne_nil userID),
      if_pos (goItoa_length_lt_eight userID hpos hlt)]

theorem refreshToken_panics_on_short_subject_witness :
    (Manager.new cfgA).refreshToken 0
        ((Manager.new cfgA).generateToken 0 123 "testuser".data [] []) =
      .panicSliceOutOfRange :=
  (refreshToken_panics_on_short_subject cfgA 0 0 123 "testuser".data [] []
    (by decide) (by decide) (by decide) (by decide)).2.2

/-- C1: at the failing input of the repository's own
`TestRefreshTokenWithAccessToken` (an access token for user 123, validly
signed and unexpired under the same manager), `RefreshToken` panics on the
out-of-range slice instead of returning the `not a refresh token` error the
test asserts. -/
theorem refreshToken_with_access_token_panics :
    (Manager.new cfgA).validateToken 5
        ((Manager.new cfgA).generateToken 0 123 "testuser".data
          "test@example.com".data "user".data) =
      .ok ((Manager.new cfgA).generateToken 0 123 "testuser".data
          "test@example.com".data "user".data).claims ∧
    (Manager.new cfgA).refreshToken 5
        ((Manager.new cfgA).generateToken 0 123 "testuser".data
          "test@example.com".data "user".data) =
      .panicSliceOutOfRange := by
  decide

/-- C5 (amended): `ValidateToken` succeeds, returning the token's claims,
exactly when the signing method is HMAC, the signature verifies against the
manager's secret, the expiry has not passed, the not-before time is not in
the future, and the issuer matches; each listed failure condition alone
already prevents success. -/
theorem validateToken_spec_amended (m : Manager) (now : Int) (tok : Token) :
    (m.validateToken now tok = .ok tok.claims ↔
      (tok.alg = .hmac ∧ tok.signedWith = m.config.secret ∧
        now < tok.claims.expiresAt ∧ tok.claims.notBefore ≤ now ∧
        tok.claims.issuer = m.config.issuer)) ∧
    (∀ c, m.validateToken now tok = .ok c → c = tok.claims) ∧
    ((tok.alg ≠ .hmac ∨ tok.signedWith ≠ m.config.secret) →
      ∀ c, m.validateToken now tok ≠ .ok c) ∧
    (tok.claims.expiresAt ≤ now → ∀ c, m.validateToken now tok ≠ .ok c) ∧
    (now < tok.claims.notBefore → ∀ c, m.validateToken now tok ≠ .ok c) ∧
    (tok.claims.issuer ≠ m.config.issuer → ∀ c, m.validateToken now tok ≠ .ok c) := by
  unfold Manager.validateToken
  split_ifs with h1 h2 h3 h4 h5 <;> simp_all

/-- C5 (counterexample to the claim as stated): a token whose signing
method is HMAC, whose signature verifies, whose expiry has not passed and
whose issuer matches is nevertheless rejected, because its not-before time
lies in the future — a failure condition the claim's list omits. -/
theorem validateToken_notYetValid_counterexample :
    tokNbf.alg = .hmac ∧
    tokNbf.signedWith = (Manager.new cfgA).config.secret ∧
    (50 : Int) < tokNbf.claims.expiresAt ∧
    tokNbf.claims.issuer = (Manager.new cfgA).config.issuer ∧
    (Manager.new cfgA).validateToken 50 tokNbf = .error .tokenNotValidYet := by
  decide

/-! ## RBAC theorems -/

/-- Boolean/propositional reading of `HasAnyRole`. -/
theorem hasAnyRole_eq_true_iff (rbac : RBAC) (userID : GoStr)
    (roleIDs : List GoStr) :
    rbac.hasAnyRole userID roleIDs = true ↔
      ∃ roleID ∈ roleIDs, roleID ∈ rbac.getUserRoles userID := by
  simp [RBAC.hasAnyRole, RBAC.hasRole, List.any_eq_true]

/-- C3: `EvaluatePolicy` grants exactly when every non-empty dimension
passes — some listed role is held when roles are listed, every listed
permission id is held when permissions are listed, and every listed action
is allowed on the policy's resource; an empty dimension is skipped. -/
theorem evaluatePolicy_iff (pe : PolicyEvaluator) (userID : GoStr)
    (policy : Policy) :
    pe.evaluatePolicy userID policy = true ↔
      ((policy.roles ≠ [] →
          ∃ roleID ∈ policy.roles, roleID ∈ pe.rbac.getUserRoles userID) ∧
        (policy.permissions ≠ [] →
          ∀ pid ∈ policy.permissions, pe.rbac.hasPermission userID pid = true) ∧
        ∀ action ∈ policy.actions,
          pe.rbac.hasResourcePermission userID policy.resource action = true) := by
  have hB : (policy.permissions.all fun pid =>
        pe.rbac.hasPermission userID pid) = true ↔
      (policy.permissions ≠ [] →
        ∀ pid ∈ policy.permissions, pe.rbac.hasPermission userID pid = true) := by
    rw [List.all_eq_true]
    constructor
    · exact fun h _ => h
    · intro h pid hpid
      refine h (fun he => ?_) pid hpid
      rw [he] at hpid
      exact absurd hpid (List.not_mem_nil pid)
  unfold PolicyEvaluator.evaluatePolicy
  rw [Bool.and_eq_true, Bool.and_eq_true, Bool.or_eq_true, hB, List.all_eq_true,
    hasAnyRole_eq_true_iff, List.isEmpty_iff, or_iff_not_imp_left, and_assoc]

/-- C4: `HasResourcePermission` holds exactly when some permission the user
holds (a member of `GetUserPermissions`) matches the resource and action
exactly, or carries the wildcard `*` in its resource or in its action
field. -/
theorem hasResourcePermission_iff (rbac : RBAC) (userID resource action : GoStr) :
    rbac.hasResourcePermission userID resource action = true ↔
      ∃ p ∈ rbac.getUserPermissions userID,
        ((p.resource = resource ∧ p.action = action) ∨
          p.resource = "*".data ∨ p.action = "*".data) := by
  simp [RBAC.hasResourcePermission, List.any_eq_true]

/-- Membership by id in the deduplication loop: an id survives exactly
when it occurs in the input and is not already in the `seen` set. -/
theorem mem_map_id_dedupAux : ∀ (ps : List Permission) (seen : List GoStr)
    (x : GoStr), x ∈ (deduplicatePermissionsAux ps seen).map Permission.id ↔
      x ∈ ps.map Permission.id ∧ x ∉ seen := by
  intro ps
  induction ps with
  | nil => simp [deduplicatePermissionsAux]
  | cons p ps ih =>
    intro seen x
    by_cases hp : p.id ∈ seen <;>
      by_cases hxp : x = p.id <;>
        simp_all [deduplicatePermissionsAux, List.map_cons, List.mem_cons]

/-- The deduplication loop leaves no repeated permission id. -/
theorem nodup_map_id_dedupAux : ∀ (ps : List Permission) (seen : List GoStr),
    ((deduplicatePermissionsAux ps seen).map Permission.id).Nodup := by
  intro ps
  induction ps with
  | nil => simp [deduplicatePermissionsAux]
  | cons p ps ih =>
    intro seen
    by_cases hp : p.id ∈ seen
    · simpa [deduplicatePermissionsAux, hp] using ih seen
    · simp only [deduplicatePermissionsAux, if_neg hp, List.map_cons,
        List.nodup_cons]
      refine ⟨fun hmem => ?_, ih _⟩
      rw [mem_map_id_dedupAux] at hmem
      exact hmem.2 (List.mem_cons_self _ _)

/-- C8: `GetUserPermissions` returns each permission id held through any of
the user's resolvable roles exactly once, and no other id. -/
theorem getUserPermissions_spec (rbac : RBAC) (userID : GoStr) :
    ((rbac.getUserPermissions userID).map Permission.id).Nodup ∧
    ∀ pid, (pid ∈ (rbac.getUserPermissions userID).map Permission.id ↔
      ∃ roleID ∈ rbac.getUserRoles userID, ∃ role,
        rbac.findRole roleID = some role ∧
          pid ∈ role.permissions.map Permission.id) := by
  constructor
  · exact nodup_map_id_dedupAux _ _
  · intro pid
    unfold RBAC.getUserPermissions deduplicatePermissions
    rw [mem_map_id_dedupAux]
    simp only [List.not_mem_nil, not_false_iff, and_true]
    constructor
    · intro hmem
      obtain ⟨p, hp, rfl⟩ := List.mem_map.mp hmem
      obtain ⟨rid, hrid, hpf⟩ := List.mem_flatMap.mp hp
      cases hfr : rbac.findRole rid with
      | none => rw [hfr] at hpf; exact absurd hpf (List.not_mem_nil p)
      | some role =>
        rw [hfr] at hpf
        exact ⟨rid, hrid, role, hfr, List.mem_map_of_mem _ hpf⟩
    · rintro ⟨rid, hrid, role, hfr, hpid⟩
      obtain ⟨p, hp, rfl⟩ := List.mem_map.mp hpid
      refine List.mem_map_of_mem _ (List.mem_flatMap.mpr ⟨rid, hrid, ?_⟩)
      rw [hfr]
      exact hp

/-- After removing the first occurrence of `pid` from a list with no
duplicate ids, no occurrence is left. -/
theorem not_mem_removeFirstPermissionById (pid : GoStr) :
    ∀ ps : List Permission, (ps.map Permission.id).Nodup →
      pid ∉ (removeFirstPermissionById ps pid).map Permission.id := by
  intro ps
  induction ps with
  | nil => intro _; simp [removeFirstPermissionById]
  | cons p ps ih =>
    intro hnd
    simp only [List.map_cons, List.nodup_cons] at hnd
    obtain ⟨hp, hnd⟩ := hnd
    by_cases hpe : p.id = pid
    · simp only [removeFirstPermissionById, if_pos hpe]
      exact hpe ▸ hp
    · simp only [removeFirstPermissionById, if_neg hpe, List.map_cons,
        List.mem_cons]
      rintro (h | h)
      · exact hpe h.symm
      · exact ih hnd h

/-- C7: `RemovePermission` fails with the not-found error exactly when the
id is unregistered; on success the id is gone from the registry and — in a
state whose role permission lists carry no duplicate ids, the documented
invariant — from every role's permission list. -/
theorem removePermission_spec (rbac : RBAC) (pid : GoStr)
    (hnodup : ∀ r ∈ rbac.roles, (r.permissions.map Permission.id).Nodup) :
    (rbac.findPermission pid = none ↔
      rbac.removePermission pid = .error .permissionNotFound) ∧
    ∀ rbac', rbac.removePermission pid = .ok rbac' →
      rbac'.findPermission pid = none ∧
      ∀ r ∈ rbac'.roles, pid ∉ r.permissions.map Permission.id := by
  constructor
  · unfold RBAC.removePermission
    cases hf : rbac.findPermission pid <;> simp [hf]
  · intro rbac' hok
    unfold RBAC.removePermission at hok
    cases hf : rbac.findPermission pid with
    | none => rw [hf] at hok; exact absurd hok (by simp)
    | some perm =>
      rw [hf] at hok
      simp only [Except.ok.injEq] at hok
      subst hok
      constructor
      · unfold RBAC.findPermission
        dsimp only
        rw [List.find?_eq_none]
        intro x hx
        rw [List.mem_filter] at hx
        simpa using hx.2
      · intro r hr
        dsimp only at hr
        rw [List.mem_map] at hr
        obtain ⟨r0, hr0, rfl⟩ := hr
        unfold removePermissionFromRole
        exact not_mem_removeFirstPermissionById pid r0.permissions (hnodup r0 hr0)

theorem removePermission_spec_witness :
    rbacARemoved.findPermission "user.read".data = none :=
  ((removePermission_spec rbacA ("user.read".data) (by decide)).2
    rbacARemoved (by decide)).1

/-! ## Rate limiter theorems -/

/-- One `consume` step preserves the bucket bounds (and the capacity). -/
theorem consume_preserves_bounds (tb : TokenBucket) (now : Int)
    (h : 0 ≤ tb.tokens ∧ tb.tokens ≤ tb.capacity ∧ 0 ≤ tb.capacity) :
    0 ≤ (tb.consume now).2.tokens ∧
    (tb.consume now).2.tokens ≤ (tb.consume now).2.capacity ∧
    0 ≤ (tb.consume now).2.capacity := by
  obtain ⟨h1, h2, h3⟩ := h
  unfold TokenBucket.consume
  dsimp only
  split_ifs <;> simp_all <;> omega

/-- The bucket bounds hold after any sequence of `consume` calls. -/
theorem consumeAll_preserves_bounds (times : List Int) :
    ∀ tb : TokenBucket,
      (0 ≤ tb.tokens ∧ tb.tokens ≤ tb.capacity ∧ 0 ≤ tb.capacity) →
      0 ≤ (tb.consumeAll times).tokens ∧
      (tb.consumeAll times).tokens ≤ (tb.consumeAll times).capacity ∧
      0 ≤ (tb.consumeAll times).capacity := by
  induction times with
  | nil => intro tb h; exact h
  | cons t ts ih =>
    intro tb h
    have hstep := consume_preserves_bounds tb t h
    simpa [TokenBucket.consumeAll, List.foldl_cons] using
      ih (tb.consume t).2 hstep

/-- C9: a bucket created by `newTokenBucket` with non-negative capacity
keeps its token count between 0 and its capacity across every sequence of
`consume` calls at arbitrary clock values. -/
theorem tokenBucket_consume_bounds (capacity rate t0 : Int) (times : List Int)
    (hcap : 0 ≤ capacity) :
    0 ≤ ((newTokenBucket capacity rate t0).consumeAll times).tokens ∧
    ((newTokenBucket capacity rate t0).consumeAll times).tokens ≤
      ((newTokenBucket capacity rate t0).consumeAll times).capacity := by
  have h := consumeAll_preserves_bounds times (newTokenBucket capacity rate t0)
    ⟨hcap, le_refl _, hcap⟩
  exact ⟨h.1, h.2.1⟩

theorem tokenBucket_consume_bounds_witness :
    0 ≤ ((newTokenBucket 5 1 0).consumeAll [0, 0, 0, 0, 0, 0, 1000000000]).tokens ∧
    ((newTokenBucket 5 1 0).consumeAll [0, 0, 0, 0, 0, 0, 1000000000]).tokens ≤
      ((newTokenBucket 5 1 0).consumeAll [0, 0, 0, 0, 0, 0, 1000000000]).capacity :=
  tokenBucket_consume_bounds 5 1 0 [0, 0, 0, 0, 0, 0, 1000000000] (by decide)

/-- C10: every `allow` call prunes the timestamps at or before
`now - window`, admits exactly when the count of surviving timestamps is
strictly below the limit, and appends `now` only on admission; with limit 3
per 1-second window, three immediate requests are admitted, the fourth is
denied, and a request after the window has elapsed is admitted again. -/
theorem slidingWindow_allow_spec :
    (∀ (sw : SlidingWindow) (now : Int),
      ((sw.allow now).1 = true ↔
        ((sw.requests.filter fun t => decide (now - sw.window < t)).length : Int) <
          sw.limit) ∧
      (sw.allow now).2.requests =
        (sw.requests.filter fun t => decide (now - sw.window < t)) ++
          (if ((sw.requests.filter fun t =>
              decide (now - sw.window < t)).length : Int) < sw.limit
            then [now] else []) ∧
      (sw.allow now).2.limit = sw.limit ∧
      (sw.allow now).2.window = sw.window) ∧
    ((newSlidingWindow 3 1000000000).allowAll [0, 0, 0, 0, 1000000000]).1 =
      [true, true, true, false, true] := by
  constructor
  · intro sw now
    unfold SlidingWindow.allow
    dsimp only
    split_ifs with h <;> simp_all
    omega
  · decide
